import Mathlib

/-!
Verification of the Velocity internet speed-test measurement engine
(src/App.tsx) against its natural-language specification.

The engine is shallowly embedded: times, byte counts and rates are
rationals (the source's JS numbers, used here only in ranges where
double arithmetic is exact or where the claims are order-theoretic),
network behaviour is an explicit environment value (which request
succeeded or failed, when each chunk arrived), and the concurrent
workers' interleaved byte reports are a given time-ordered event list.
-/

namespace Velocity

/-- Source constant TEST_DURATION_MS (src/App.tsx line 48). -/
def TEST_DURATION_MS : ℚ := 8000

/-- Source constant CONCURRENT_STREAMS (src/App.tsx line 49). -/
def CONCURRENT_STREAMS : ℕ := 4

/-- Source constant RAMP_UP_THRESHOLD_MS, the warm-up window (src/App.tsx line 50). -/
def RAMP_UP_THRESHOLD_MS : ℚ := 1200

/-- The TestPhase enumeration (src/App.tsx lines 52-59). -/
inductive TestPhase where
  | IDLE | PING | DOWNLOAD | TRANSITION | UPLOAD | COMPLETE
deriving DecidableEq, Repr

/-- Ascending sort, modelling the source's `samples.sort((a, b) => a - b)`. -/
def sortQ (l : List ℚ) : List ℚ := List.insertionSort (· ≤ ·) l

/-- The sample-reduction applied at phase end (src/App.tsx lines 255 and 314):
`samples.length > 0 ? samples.sort((a,b) => a-b)[Math.floor(samples.length * 0.8)] : 0`.
For every attainable list length n, `Math.floor(n * 0.8)` equals the natural
number division `4 * n / 5` (the double `0.8` exceeds 4/5 by < 6e-17, far too
little to move the floor at sample counts a bounded-duration phase can reach). -/
def percentile80 (samples : List ℚ) : ℚ :=
  if samples.length > 0 then (sortQ samples).getD (4 * samples.length / 5) 0 else 0

/-- Mutable state shared by the workers of one throughput phase: the byte
counter (`totalBytes` / `totalBytesUploaded`), the history-chart rate-limit
reference `lastHistoryUpdateRef.current`, and the retained sample sequence.
Each retained sample is recorded with the clock reading `now` at which it was
pushed (the source pushes only the rate; the timestamp instruments the trace
for the temporal claims). -/
structure TickState where
  totalBytes : ℚ
  lastHist : ℚ
  samples : List (ℚ × ℚ)
deriving Repr

/-- Sampling logic executed after a byte report, shared verbatim by the
download read loop (src/App.tsx lines 227-243) and the upload send loop
(lines 288-302): if more than 50 ms passed since the last history update,
and the elapsed phase time exceeds the warm-up window, compute
`mbps = totalBytes * 8 / (elapsed * 1000)`, retain it, and additionally
advance `lastHistoryUpdateRef` when more than 200 ms passed. -/
def sampleTick (testStart : ℚ) (st : TickState) (now : ℚ) : TickState :=
  let elapsed := now - testStart
  if 50 < now - st.lastHist then
    if RAMP_UP_THRESHOLD_MS < elapsed then
      let mbps := st.totalBytes * 8 / (elapsed * 1000)
      let st' : TickState :=
        { st with samples := st.samples ++ [(now, mbps)] }
      if 200 < now - st.lastHist then { st' with lastHist := now } else st'
    else st
  else st

/-- One chunk event of the download read loop (src/App.tsx lines 223-243):
`totalBytes += value.length` followed by the sampling logic. An event is
(clock reading, chunk byte length). -/
def chunkStep (testStart : ℚ) (st : TickState) (ev : ℚ × ℚ) : TickState :=
  sampleTick testStart { st with totalBytes := st.totalBytes + ev.2 } ev.1

/-- Initial shared state of a throughput phase: zero bytes, no samples,
and the `lastHistoryUpdateRef` value inherited from the caller. -/
def initTick (lastHist0 : ℚ) : TickState :=
  { totalBytes := 0, lastHist := lastHist0, samples := [] }

/-- The download phase aggregate (src/App.tsx lines 205-256): the four
streams' chunk reports, merged into one time-ordered event list, drive the
shared state; the phase returns the 80th-percentile reduction of the
retained samples. -/
def runDownloadTest (testStart lastHist0 : ℚ) (events : List (ℚ × ℚ)) :
    TickState × ℚ :=
  let st := events.foldl (chunkStep testStart) (initTick lastHist0)
  (st, percentile80 (st.samples.map Prod.snd))

/-- Upload payload size: a 1 MiB blob generated once per test
(src/App.tsx lines 268-275). -/
def UPLOAD_BLOB_SIZE : ℚ := 1024 * 1024

/-- The upload phase aggregate (src/App.tsx lines 258-315): each successful
POST adds `blob.size` bytes and runs the sampling logic; `ticks` is the
time-ordered merge of the four workers' send-completion times. -/
def runUploadTest (testStart lastHist0 : ℚ) (ticks : List ℚ) :
    TickState × ℚ :=
  let st := ticks.foldl
    (fun st now => chunkStep testStart st (now, UPLOAD_BLOB_SIZE))
    (initTick lastHist0)
  (st, percentile80 (st.samples.map Prod.snd))

/-- The latency/jitter probe reduction (src/App.tsx lines 342-344):
`pings.sort((a,b) => a-b).slice(1, -1)` trims the first and last element of
the sorted probe list, then latency is `Math.round` of the mean and jitter is
`Math.round(Math.max(...trimmed) - Math.min(...trimmed))`. -/
def probeReduce (pings : List ℚ) : ℤ × ℤ :=
  let sortedPings := (sortQ pings).drop 1 |>.dropLast
  (round (sortedPings.sum / (sortedPings.length : ℚ)),
   round ((sortedPings.maximum.unbot' 0) - (sortedPings.minimum.untop' 0)))

/-- Penalty round-trip time recorded for a failed probe
(src/App.tsx line 339: `catch { pings.push(999); }`). -/
def probePenalty : ℚ := 999

/-- The six-probe latency pass of startTest (src/App.tsx lines 333-344):
each probe either measures a round-trip time or, on failure, records the
penalty value; the list is then reduced by probeReduce. -/
def runPingProbe (probes : List (Option ℚ)) : ℤ × ℤ :=
  probeReduce (probes.map (fun o => o.getD probePenalty))

/-- Outcome of one download request as served by the network: the chunk
events (clock reading, byte length) the response body delivered before it
ended, whether it ended in a transport error, and the clock reading at which
the request terminated. -/
structure RequestOutcome where
  chunks : List (ℚ × ℚ)
  errored : Bool
  endTime : ℚ
deriving Repr, DecidableEq

/-- One download stream (src/App.tsx lines 214-251). The body performs a
single fetch and reads its body until done, abort or transport error; the
catch swallows any error and the function returns. There is no loop around
the fetch, so a stream issues exactly one request: outcomes the network
could have served to a follow-up request (`rest`) are never consumed,
whatever the first request's fate and however much time remains before the
deadline. Returns (requests issued, chunk events reported to the shared
counter). -/
def streamAttempts (first : RequestOutcome) (rest : List RequestOutcome) :
    ℕ × List (ℚ × ℚ) :=
  (1, first.chunks)

/-- Outcome of one upload POST attempt: success at a given completion time,
or failure at a given time with the flag telling whether it was an
AbortError. -/
inductive UpAttempt where
  | ok (endTime : ℚ)
  | err (endTime : ℚ) (isAbort : Bool)
deriving Repr, DecidableEq

/-- Request count of one upload worker (src/App.tsx lines 277-310): the
while loop keeps issuing POSTs while the elapsed time is below the test
duration; a caught error breaks the loop only when it is an AbortError,
otherwise the worker retries. `now` is the clock reading at the loop test,
advanced to each attempt's completion time. -/
def uploadWorkerAttempts (testStart : ℚ) : ℚ → List UpAttempt → ℕ
  | _, [] => 0
  | now, a :: rest =>
    if now - testStart < TEST_DURATION_MS then
      match a with
      | .ok t => 1 + uploadWorkerAttempts testStart t rest
      | .err t ab =>
          if ab then 1 else 1 + uploadWorkerAttempts testStart t rest
    else 0

/-- The consolidated result handed to saveToHistory
(src/App.tsx lines 364-371), engine fields only. -/
structure TestResult where
  download : ℚ
  upload : ℚ
  ping : ℤ
  jitter : ℤ
deriving Repr, DecidableEq

/-- Point of the startTest body at which an unexpected exception escapes to
the outer catch (src/App.tsx lines 372-375), if any. -/
inductive CrashPoint where
  | ping | download | transition | upload
deriving Repr, DecidableEq

/-- The environment of one run: probe outcomes, per-stream download request
outcomes, the time-ordered merge of the four download streams' chunk events,
the upload send-completion times, the initial clock values, and the point at
which an unexpected exception escapes, if any. `dlEvents` is the
interleaving of the chunk reports of `dlWorkers` actually observed by the
shared counter. -/
structure Env where
  probes : List (Option ℚ)
  testStartDl : ℚ
  dlWorkers : List RequestOutcome
  dlEvents : List (ℚ × ℚ)
  testStartUl : ℚ
  ulTicks : List ℚ
  lastHist0 : ℚ
  crash : Option CrashPoint

/-- Observable outcome of one startTest call: the phases set (in order),
the phase the machine rests in afterwards, the TestResult saved to history
(none when the run aborted), and how many throughput workers were spawned. -/
structure RunOutcome where
  trace : List TestPhase
  finalPhase : TestPhase
  result : Option TestResult
  workersSpawned : ℕ
deriving Repr, DecidableEq

/-- The startTest body inside the try block (src/App.tsx lines 321-371):
PING probe pass, download phase, TRANSITION pause, upload phase, COMPLETE
with the saved result; an escaping exception at any step lands in the catch,
which resets the phase to IDLE (lines 372-375) so no result is saved. The
upload phase spawns a hard-coded 4 workers (line 312). -/
def runBody (env : Env) : RunOutcome :=
  if env.crash = some .ping then
    ⟨[.PING], .IDLE, none, 0⟩
  else
    let pj := runPingProbe env.probes
    if env.crash = some .download then
      ⟨[.PING, .DOWNLOAD], .IDLE, none, CONCURRENT_STREAMS⟩
    else
      let dl := runDownloadTest env.testStartDl env.lastHist0 env.dlEvents
      if env.crash = some .transition then
        ⟨[.PING, .DOWNLOAD, .TRANSITION], .IDLE, none, CONCURRENT_STREAMS⟩
      else if env.crash = some .upload then
        ⟨[.PING, .DOWNLOAD, .TRANSITION, .UPLOAD], .IDLE, none,
          CONCURRENT_STREAMS + 4⟩
      else
        let ul := runUploadTest env.testStartUl dl.1.lastHist env.ulTicks
        ⟨[.PING, .DOWNLOAD, .TRANSITION, .UPLOAD, .COMPLETE], .COMPLETE,
          some ⟨dl.2, ul.2, pj.1, pj.2⟩, CONCURRENT_STREAMS + 4⟩

/-- startTest (src/App.tsx lines 317-376). The first statement is the
re-entrancy guard: `if (phase !== IDLE && phase !== COMPLETE) return;` —
when it fires, nothing at all happens (no phase change, no worker spawned,
no result). -/
def startTest (phase0 : TestPhase) (env : Env) : RunOutcome :=
  if phase0 ≠ .IDLE ∧ phase0 ≠ .COMPLETE then ⟨[], phase0, none, 0⟩
  else runBody env

/-! ## Supporting lemmas -/

lemma sortQ_perm (l : List ℚ) : (sortQ l).Perm l :=
  List.perm_insertionSort _ l

lemma sortQ_sorted (l : List ℚ) : (sortQ l).Sorted (· ≤ ·) :=
  List.sorted_insertionSort _ l

lemma sortQ_length (l : List ℚ) : (sortQ l).length = l.length :=
  (sortQ_perm l).length_eq

lemma sortQ_eq_of_sorted {l m : List ℚ} (hp : m.Perm l)
    (hs : m.Sorted (· ≤ ·)) : sortQ l = m :=
  List.eq_of_perm_of_sorted ((sortQ_perm l).trans hp.symm) (sortQ_sorted l) hs

lemma sortQ_append_big {l : List ℚ} {x : ℚ} (hx : ∀ y ∈ l, y ≤ x) :
    sortQ (l ++ [x]) = sortQ l ++ [x] := by
  apply sortQ_eq_of_sorted ((sortQ_perm l).append_right [x])
  rw [List.Sorted, List.pairwise_append]
  refine ⟨sortQ_sorted l, List.pairwise_singleton _ _, ?_⟩
  intro a ha b hb
  simp only [List.mem_singleton] at hb
  subst hb
  exact hx a ((sortQ_perm l).mem_iff.mp ha)

lemma sortQ_append_small {l : List ℚ} {x : ℚ} (hx : ∀ y ∈ l, x ≤ y) :
    sortQ (l ++ [x]) = x :: sortQ l := by
  apply sortQ_eq_of_sorted
    (((sortQ_perm l).cons x).trans (List.perm_append_singleton x l).symm)
  rw [List.sorted_cons]
  exact ⟨fun b hb => hx b ((sortQ_perm l).mem_iff.mp hb), sortQ_sorted l⟩

lemma sorted_getD_mono {s : List ℚ} (hs : s.Sorted (· ≤ ·)) {i j : ℕ}
    (hij : i ≤ j) (hj : j < s.length) : s.getD i 0 ≤ s.getD j 0 := by
  have hi : i < s.length := lt_of_le_of_lt hij hj
  rw [List.getD_eq_getElem s 0 hi, List.getD_eq_getElem s 0 hj]
  have h := hs.rel_get_of_le (a := ⟨i, hi⟩) (b := ⟨j, hj⟩) hij
  simpa using h

lemma percentile80_nil : percentile80 [] = 0 := rfl

lemma percentile80_pos {l : List ℚ} (h : l ≠ []) :
    percentile80 l = (sortQ l).getD (4 * l.length / 5) 0 := by
  unfold percentile80
  rw [if_pos (List.length_pos.mpr h)]

lemma percentile80_mem {l : List ℚ} (h : l ≠ []) : percentile80 l ∈ l := by
  rw [percentile80_pos h]
  have hlen : 4 * l.length / 5 < (sortQ l).length := by
    rw [sortQ_length]
    have := List.length_pos.mpr h
    omega
  rw [List.getD_eq_getElem _ _ hlen]
  exact (sortQ_perm l).mem_iff.mp (List.getElem_mem hlen)

lemma floor_point_eight (n : ℕ) : (⌊(n : ℚ) * 0.8⌋).toNat = 4 * n / 5 := by
  have h08 : ((n : ℚ)) * 0.8 = ((4 * n : ℕ) : ℚ) / ((5 : ℕ) : ℚ) := by
    push_cast
    ring
  rw [Int.floor_toNat, h08, Nat.floor_div_nat, Nat.floor_natCast]

lemma sorted_head_le {s : List ℚ} (hs : s.Sorted (· ≤ ·)) {a : ℚ}
    {t : List ℚ} (he : s = a :: t) {y : ℚ} (hy : y ∈ s) : a ≤ y := by
  subst he
  rcases List.mem_cons.mp hy with rfl | hy
  · exact le_refl _
  · exact (List.sorted_cons.mp hs).1 y hy

lemma sorted_le_getLast {s : List ℚ} (hs : s.Sorted (· ≤ ·)) (h : s ≠ [])
    {y : ℚ} (hy : y ∈ s) : y ≤ s.getLast h := by
  have hd := List.dropLast_append_getLast h
  rw [← hd] at hs hy
  rw [List.Sorted, List.pairwise_append] at hs
  rcases List.mem_append.mp hy with hy2 | hy2
  · exact hs.2.2 y hy2 _ (List.mem_singleton_self _)
  · simp only [List.mem_singleton] at hy2
    subst hy2
    exact le_refl _

lemma percentile80_spec (l : List ℚ) (h : l ≠ []) :
    ∃ s : List ℚ, s.Perm l ∧ s.Sorted (· ≤ ·) ∧
      percentile80 l = s.getD ((⌊(l.length : ℚ) * 0.8⌋).toNat) 0 :=
  ⟨sortQ l, sortQ_perm l, sortQ_sorted l, by
    rw [percentile80_pos h, floor_point_eight]⟩

/-! ## Claim theorems -/

/-- C10: for every non-empty retained sample list of length n, the
reduction index floor(n * 0.8) — which the source computes as the natural
division 4n/5 — is strictly less than n, so the percentile indexing is
always in bounds for the sorted list; the reduced result is an element of
the retained list and lies between the list's minimum and maximum; the
reduction is total (percentile80 is a total function by construction). -/
theorem percentile80_index_in_bounds_and_mem (l : List ℚ) (h : l ≠ []) :
    (⌊(l.length : ℚ) * 0.8⌋).toNat = 4 * l.length / 5 ∧
    4 * l.length / 5 < l.length ∧
    4 * l.length / 5 < (sortQ l).length ∧
    percentile80 l ∈ l ∧
    ∃ m M, m ∈ l ∧ M ∈ l ∧ (∀ y ∈ l, m ≤ y ∧ y ≤ M) ∧
      m ≤ percentile80 l ∧ percentile80 l ≤ M := by
  have hlpos : 0 < l.length := List.length_pos.mpr h
  refine ⟨floor_point_eight l.length, by omega, ?_, percentile80_mem h, ?_⟩
  · rw [sortQ_length]
    omega
  · obtain ⟨a, t, he⟩ : ∃ a t, sortQ l = a :: t := by
      cases hs : sortQ l with
      | nil =>
          exfalso
          have hlen := sortQ_length l
          rw [hs] at hlen
          simp at hlen
          omega
      | cons a t => exact ⟨a, t, rfl⟩
    have hsn : sortQ l ≠ [] := by
      rw [he]
      simp
    have hpmem : percentile80 l ∈ sortQ l :=
      (sortQ_perm l).mem_iff.mpr (percentile80_mem h)
    refine ⟨a, (sortQ l).getLast hsn, ?_, ?_, ?_, ?_, ?_⟩
    · exact (sortQ_perm l).mem_iff.mp (by rw [he]; exact List.mem_cons_self a t)
    · exact (sortQ_perm l).mem_iff.mp (List.getLast_mem hsn)
    · intro y hy
      have hy2 : y ∈ sortQ l := (sortQ_perm l).mem_iff.mpr hy
      exact ⟨sorted_head_le (sortQ_sorted l) he hy2,
        sorted_le_getLast (sortQ_sorted l) hsn hy2⟩
    · exact sorted_head_le (sortQ_sorted l) he hpmem
    · exact sorted_le_getLast (sortQ_sorted l) hsn hpmem

/-- C10 witness: the reduced value of the concrete retained sample list
[10, 30, 20] is one of its elements. -/
theorem percentile80_in_bounds_witness :
    percentile80 [10, 30, 20] ∈ ([10, 30, 20] : List ℚ) :=
  (percentile80_index_in_bounds_and_mem [10, 30, 20] (by decide)).2.2.2.1

/-- C7: the 80th-percentile reduction is monotonic at the extremes — for a
non-empty retained sample list, appending a sample strictly greater than
every existing sample never decreases the reduced result, and appending one
strictly smaller than every existing sample never increases it. -/
theorem percentile80_monotone_at_extremes (l : List ℚ) (x : ℚ) (h : l ≠ []) :
    ((∀ y ∈ l, y < x) → percentile80 l ≤ percentile80 (l ++ [x])) ∧
    ((∀ y ∈ l, x < y) → percentile80 (l ++ [x]) ≤ percentile80 l) := by
  have hlpos : 0 < l.length := List.length_pos.mpr h
  have hne : l ++ [x] ≠ [] := by simp
  have hlen : (l ++ [x]).length = l.length + 1 := by simp
  have hslen : (sortQ l).length = l.length := sortQ_length l
  have hmem : (sortQ l).getD (4 * l.length / 5) 0 ∈ l := by
    rw [← percentile80_pos h]
    exact percentile80_mem h
  constructor
  · intro hx
    rw [percentile80_pos h, percentile80_pos hne,
      sortQ_append_big (fun y hy => le_of_lt (hx y hy)), hlen]
    rcases Nat.lt_or_ge (4 * (l.length + 1) / 5) l.length with hlt | hge
    · rw [List.getD_append _ _ _ _ (by rw [hslen]; omega)]
      exact sorted_getD_mono (sortQ_sorted l) (by omega) (by rw [hslen]; omega)
    · have hj1 : 4 * (l.length + 1) / 5 = l.length := by omega
      have hjlt : 4 * (l.length + 1) / 5 < (sortQ l ++ [x]).length := by
        rw [List.length_append, hslen]
        simp
        omega
      rw [List.getD_eq_getElem _ _ hjlt,
        List.getElem_append_right (by rw [hslen]; omega)]
      simp only [hslen, hj1, Nat.sub_self, List.getElem_cons_zero]
      exact le_of_lt (hx _ hmem)
  · intro hx
    rw [percentile80_pos h, percentile80_pos hne,
      sortQ_append_small (fun y hy => le_of_lt (hx y hy)), hlen]
    rcases Nat.eq_zero_or_pos (4 * (l.length + 1) / 5) with hj0 | hjpos
    · rw [hj0, List.getD_cons_zero]
      exact le_of_lt (hx _ hmem)
    · obtain ⟨k, hk⟩ : ∃ k, 4 * (l.length + 1) / 5 = k + 1 :=
        ⟨4 * (l.length + 1) / 5 - 1, by omega⟩
      rw [hk, List.getD_cons_succ]
      exact sorted_getD_mono (sortQ_sorted l) (by omega) (by rw [hslen]; omega)

/-- C7 witness: appending the strictly dominating sample 9 to [1, 2] does
not decrease the reduced rate. -/
theorem percentile80_monotone_witness :
    percentile80 [1, 2] ≤ percentile80 ([1, 2] ++ [9]) :=
  (percentile80_monotone_at_extremes [1, 2] 9 (by decide)).1 (by decide)

/-- C1: for each throughput phase (download and upload), the final reported
rate equals the value at index floor(count * 0.8) of the retained
rate-sample sequence sorted ascending (a sorted permutation of the retained
rates), and equals 0 when no samples were retained. -/
theorem final_rate_is_80th_percentile (testStartD lastHistD testStartU
    lastHistU : ℚ) (events : List (ℚ × ℚ)) (ticks : List ℚ) :
    ((runDownloadTest testStartD lastHistD events).1.samples.map Prod.snd = [] →
      (runDownloadTest testStartD lastHistD events).2 = 0) ∧
    ((runDownloadTest testStartD lastHistD events).1.samples.map Prod.snd ≠ [] →
      ∃ s : List ℚ,
        s.Perm ((runDownloadTest testStartD lastHistD events).1.samples.map Prod.snd) ∧
        s.Sorted (· ≤ ·) ∧
        (runDownloadTest testStartD lastHistD events).2 =
          s.getD ((⌊((((runDownloadTest testStartD lastHistD
            events).1.samples.map Prod.snd).length : ℚ) * 0.8)⌋).toNat) 0) ∧
    ((runUploadTest testStartU lastHistU ticks).1.samples.map Prod.snd = [] →
      (runUploadTest testStartU lastHistU ticks).2 = 0) ∧
    ((runUploadTest testStartU lastHistU ticks).1.samples.map Prod.snd ≠ [] →
      ∃ s : List ℚ,
        s.Perm ((runUploadTest testStartU lastHistU ticks).1.samples.map Prod.snd) ∧
        s.Sorted (· ≤ ·) ∧
        (runUploadTest testStartU lastHistU ticks).2 =
          s.getD ((⌊((((runUploadTest testStartU lastHistU
            ticks).1.samples.map Prod.snd).length : ℚ) * 0.8)⌋).toNat) 0) := by
  refine ⟨?_, ?_, ?_, ?_⟩
  · intro hnil
    have h2 : (runDownloadTest testStartD lastHistD events).2 =
        percentile80 ((runDownloadTest testStartD lastHistD
          events).1.samples.map Prod.snd) := rfl
    rw [h2, hnil]
    rfl
  · intro hnn
    exact percentile80_spec _ hnn
  · intro hnil
    have h2 : (runUploadTest testStartU lastHistU ticks).2 =
        percentile80 ((runUploadTest testStartU lastHistU
          ticks).1.samples.map Prod.snd) := rfl
    rw [h2, hnil]
    rfl
  · intro hnn
    exact percentile80_spec _ hnn

/-- C1 witness: a download phase with no byte events retains no samples and
reports a final rate of 0. -/
theorem final_rate_witness : (runDownloadTest 0 0 []).2 = 0 :=
  (final_rate_is_80th_percentile 0 0 0 0 [] []).1 rfl

/-- A retained sample produced by one sampling tick either was already
present or carries the tick's clock reading and an elapsed time strictly
beyond the warm-up window. -/
lemma sampleTick_mem {testStart : ℚ} {st : TickState} {now : ℚ} {p : ℚ × ℚ}
    (hp : p ∈ (sampleTick testStart st now).samples) :
    p ∈ st.samples ∨
      (p.1 = now ∧ RAMP_UP_THRESHOLD_MS < now - testStart) := by
  simp only [sampleTick] at hp
  split_ifs at hp with h1 h2 h3
  · simp only [List.mem_append, List.mem_singleton] at hp
    rcases hp with hq | hq
    · exact Or.inl hq
    · exact Or.inr ⟨by rw [hq], h2⟩
  · simp only [List.mem_append, List.mem_singleton] at hp
    rcases hp with hq | hq
    · exact Or.inl hq
    · exact Or.inr ⟨by rw [hq], h2⟩
  · exact Or.inl hp
  · exact Or.inl hp

/-- The warm-up invariant is preserved by folding download chunk events. -/
lemma chunk_fold_warm {testStart : ℚ} :
    ∀ (events : List (ℚ × ℚ)) (st : TickState),
      (∀ p ∈ st.samples, RAMP_UP_THRESHOLD_MS < p.1 - testStart) →
      ∀ p ∈ (events.foldl (chunkStep testStart) st).samples,
        RAMP_UP_THRESHOLD_MS < p.1 - testStart := by
  intro events
  induction events with
  | nil => exact fun st h p hp => h p hp
  | cons e rest ih =>
      intro st h p hp
      refine ih _ ?_ p hp
      intro q hq
      rcases sampleTick_mem hq with hq1 | hq2
      · exact h q hq1
      · rw [hq2.1]
        exact hq2.2

/-- The warm-up invariant is preserved by folding upload send events. -/
lemma upload_fold_warm {testStart : ℚ} :
    ∀ (ticks : List ℚ) (st : TickState),
      (∀ p ∈ st.samples, RAMP_UP_THRESHOLD_MS < p.1 - testStart) →
      ∀ p ∈ (ticks.foldl
          (fun st2 now => chunkStep testStart st2 (now, UPLOAD_BLOB_SIZE))
          st).samples,
        RAMP_UP_THRESHOLD_MS < p.1 - testStart := by
  intro ticks
  induction ticks with
  | nil => exact fun st h p hp => h p hp
  | cons e rest ih =>
      intro st h p hp
      refine ih _ ?_ p hp
      intro q hq
      rcases sampleTick_mem hq with hq1 | hq2
      · exact h q hq1
      · rw [hq2.1]
        exact hq2.2

/-- C2: a tick whose elapsed time is at most the warm-up window (1200 ms)
never adds a retained sample; a tick that does add a retained sample has
elapsed time strictly beyond the window; consequently every retained sample
of a whole download or upload phase was taken strictly after the warm-up
window. -/
theorem warmup_samples_never_retained (testStart lastHist0 : ℚ)
    (st : TickState) (now : ℚ) (events : List (ℚ × ℚ)) (ticks : List ℚ) :
    (now - testStart ≤ RAMP_UP_THRESHOLD_MS →
      (sampleTick testStart st now).samples = st.samples) ∧
    ((sampleTick testStart st now).samples ≠ st.samples →
      RAMP_UP_THRESHOLD_MS < now - testStart) ∧
    (∀ p ∈ (runDownloadTest testStart lastHist0 events).1.samples,
      RAMP_UP_THRESHOLD_MS < p.1 - testStart) ∧
    (∀ p ∈ (runUploadTest testStart lastHist0 ticks).1.samples,
      RAMP_UP_THRESHOLD_MS < p.1 - testStart) := by
  have hexcl : now - testStart ≤ RAMP_UP_THRESHOLD_MS →
      (sampleTick testStart st now).samples = st.samples := by
    intro hle
    simp only [sampleTick]
    split_ifs with h1 h2 h3
    · exact absurd h2 (not_lt.mpr hle)
    · exact absurd h2 (not_lt.mpr hle)
    · rfl
    · rfl
  refine ⟨hexcl, ?_, ?_, ?_⟩
  · intro hne
    by_contra hc
    exact hne (hexcl (not_lt.mp hc))
  · exact chunk_fold_warm events (initTick lastHist0) (by intro p hp; simp [initTick] at hp)
  · exact upload_fold_warm ticks (initTick lastHist0) (by intro p hp; simp [initTick] at hp)

/-- C2 witness: at elapsed time 1000 ms (at most the 1200 ms warm-up
window) the sampling tick retains nothing. -/
theorem warmup_witness :
    (sampleTick 0 (initTick 0) 1000).samples = (initTick 0).samples :=
  (warmup_samples_never_retained 0 0 (initTick 0) 1000 [] []).1
    (by norm_num [RAMP_UP_THRESHOLD_MS])

/-- C8 counterexample: in a download phase whose chunk events arrive at
1300 ms, 1355 ms and 1360 ms (all after warm-up), all three events pass the
50 ms gate because the reference timestamp only advances on 200 ms history
updates, so the last two retained samples are a mere 5 ms apart — the
claimed 50 ms minimum spacing between consecutive retained samples fails. -/
theorem sample_cadence_counterexample :
    ((runDownloadTest 0 0
        [(1300, 100000), (1355, 100000), (1360, 100000)]).1.samples.map
      Prod.fst) = [1300, 1355, 1360] ∧
    ¬ ((50 : ℚ) ≤ 1360 - 1355) := by
  constructor
  · norm_num [runDownloadTest, chunkStep, sampleTick, initTick,
      RAMP_UP_THRESHOLD_MS, List.foldl]
  · norm_num

/-- C8 (amended): a retained sample is recorded only at a tick occurring
strictly more than 50 ms after the last history-chart update timestamp;
because that reference advances only on history updates (every 200 ms),
consecutive retained samples themselves may be closer than 50 ms. -/
theorem retained_sample_requires_stale_history (testStart : ℚ)
    (st : TickState) (now : ℚ)
    (h : (sampleTick testStart st now).samples ≠ st.samples) :
    50 < now - st.lastHist := by
  by_contra hc
  apply h
  simp only [sampleTick]
  rw [if_neg hc]

/-- C8 (amended) witness: the tick at 1300 ms from a fresh state does add a
retained sample, and indeed occurs more than 50 ms after the reference. -/
theorem retained_sample_stale_witness :
    50 < (1300 : ℚ) - (initTick 0).lastHist :=
  retained_sample_requires_stale_history 0 (initTick 0) 1300
    (by norm_num [sampleTick, initTick, RAMP_UP_THRESHOLD_MS])

/-- C3: the latency/jitter probe reduction sorts the raw round-trip
samples and trims the single lowest and single highest (possible whenever
at least 3 samples exist): the sorted list decomposes as a global minimum,
the trimmed middle, and a global maximum, and the reported pair is the
rounded mean of the trimmed set and the rounded max-minus-min of the
trimmed set; in particular the probe list [20, 22, 21, 120] reduces to
latency 22 ms and jitter 1 ms. -/
theorem latency_jitter_reduction (l : List ℚ) (h : 3 ≤ l.length) :
    (∃ lo mid hi, sortQ l = lo :: (mid ++ [hi]) ∧
      (∀ y ∈ l, lo ≤ y) ∧ (∀ y ∈ l, y ≤ hi) ∧
      probeReduce l = (round (mid.sum / (mid.length : ℚ)),
        round ((mid.maximum.unbot' 0) - (mid.minimum.untop' 0)))) ∧
    probeReduce [20, 22, 21, 120] = (22, 1) := by
  constructor
  · have hsl := sortQ_length l
    obtain ⟨a, t, he⟩ : ∃ a t, sortQ l = a :: t := by
      cases hs : sortQ l with
      | nil =>
          exfalso
          rw [hs] at hsl
          simp at hsl
          omega
      | cons a t => exact ⟨a, t, rfl⟩
    have hsn : sortQ l ≠ [] := by rw [he]; simp
    have htne : t ≠ [] := by
      intro hnil
      rw [he, hnil] at hsl
      simp at hsl
      omega
    have ht : t.dropLast ++ [t.getLast htne] = t :=
      List.dropLast_append_getLast htne
    have hsplit : sortQ l = a :: (t.dropLast ++ [t.getLast htne]) := by
      rw [he, ht]
    have htrim : ((sortQ l).drop 1).dropLast = t.dropLast := by
      rw [he]
      simp only [List.drop_one, List.tail_cons]
    have hsort2 : (a :: t).Sorted (· ≤ ·) := he ▸ sortQ_sorted l
    refine ⟨a, t.dropLast, t.getLast htne, hsplit, ?_, ?_, ?_⟩
    · intro y hy
      exact sorted_head_le (sortQ_sorted l) he
        ((sortQ_perm l).mem_iff.mpr hy)
    · intro y hy
      have hy2 : y ∈ a :: t := he ▸ (sortQ_perm l).mem_iff.mpr hy
      have h3 := sorted_le_getLast hsort2 (List.cons_ne_nil a t) hy2
      rwa [List.getLast_cons htne] at h3
    · simp only [probeReduce, htrim]
  · have h4 : ((sortQ [20, 22, 21, 120]).drop 1).dropLast = [21, 22] := by
      decide
    have hmax : (([21, 22] : List ℚ).maximum.unbot' 0) = 22 := by decide
    have hmin : (([21, 22] : List ℚ).minimum.untop' 0) = 21 := by decide
    simp only [probeReduce, h4, hmax, hmin]
    norm_num [round_eq]

/-- C3 witness: the reduction applied to the concrete probe list of the
specification scenario. -/
theorem latency_jitter_witness : probeReduce [20, 22, 21, 120] = (22, 1) :=
  (latency_jitter_reduction [20, 22, 21, 120] (by decide)).2

/-- C4 counterexample: a download worker whose single request errors at
100 ms — far before the 8000 ms deadline, with a further request outcome
available from the network — still issues exactly one request: it does not
restart, refuting the claimed restart-on-error behaviour. -/
theorem download_worker_no_restart_counterexample :
    (streamAttempts ⟨[], true, 100⟩ [⟨[(200, 65536)], false, 8000⟩]).1 = 1 ∧
    (⟨[], true, 100⟩ : RequestOutcome).errored = true ∧
    ((⟨[], true, 100⟩ : RequestOutcome).endTime < TEST_DURATION_MS) ∧
    ¬ 2 ≤ (streamAttempts ⟨[], true, 100⟩ [⟨[(200, 65536)], false, 8000⟩]).1 := by
  refine ⟨rfl, rfl, ?_, by decide⟩
  norm_num [TEST_DURATION_MS]

/-- C4 (amended): a download worker never restarts — it issues exactly one
request per phase and stops permanently when that request ends (completion,
abort or transport error), even before the deadline; only an upload worker
restarts after a failed attempt, issuing a further attempt whenever a
non-abort error occurs while the deadline has not passed. -/
theorem download_worker_single_request (first : RequestOutcome)
    (rest : List RequestOutcome) (t ts0 now : ℚ) (rest2 : List UpAttempt)
    (h : now - ts0 < TEST_DURATION_MS) :
    (streamAttempts first rest).1 = 1 ∧
    uploadWorkerAttempts ts0 now (UpAttempt.err t false :: rest2) =
      1 + uploadWorkerAttempts ts0 t rest2 := by
  refine ⟨rfl, ?_⟩
  simp only [uploadWorkerAttempts]
  rw [if_pos h]
  simp

/-- C4 (amended) witness: with an upload error at 500 ms and 7000 ms still
on the clock, the download worker count is 1 and the upload worker queues
another attempt. -/
theorem download_worker_single_request_witness :
    (streamAttempts ⟨[], true, 100⟩ []).1 = 1 ∧
    uploadWorkerAttempts 0 500 [UpAttempt.err 600 false] =
      1 + uploadWorkerAttempts 0 600 [] :=
  download_worker_single_request ⟨[], true, 100⟩ [] 600 0 500 []
    (by norm_num [TEST_DURATION_MS])

/-- C5: the re-entrancy guard — calling startTest in any of the four
in-flight phases (PING, DOWNLOAD, TRANSITION, UPLOAD) is a no-op: the phase
is unchanged, no phase transition is emitted, no result is produced and no
worker is spawned. -/
theorem startTest_reentrancy_guard (p : TestPhase) (env : Env)
    (hp : p = .PING ∨ p = .DOWNLOAD ∨ p = .TRANSITION ∨ p = .UPLOAD) :
    startTest p env = ⟨[], p, none, 0⟩ := by
  rcases hp with rfl | rfl | rfl | rfl <;>
    simp [startTest]

/-- C5 witness: starting while the phase is DOWNLOAD changes nothing. -/
theorem startTest_reentrancy_witness :
    startTest .DOWNLOAD ⟨[], 0, [], [], 0, [], 0, none⟩ =
      ⟨[], .DOWNLOAD, none, 0⟩ :=
  startTest_reentrancy_guard .DOWNLOAD ⟨[], 0, [], [], 0, [], 0, none⟩
    (Or.inr (Or.inl rfl))

/-- C6: when every download worker fails every request (each of the four
streams errors having delivered no chunk, so the merged event list is a
permutation of an empty concatenation), and no orchestration exception
occurs, the download rate of the produced result is 0 and the run still
reaches TRANSITION and ends at COMPLETE rather than stalling in
DOWNLOAD. -/
theorem all_failed_download_yields_zero (env : Env)
    (hcrash : env.crash = none)
    (hlen : env.dlWorkers.length = CONCURRENT_STREAMS)
    (hfail : ∀ w ∈ env.dlWorkers, w.errored = true ∧ w.chunks = [])
    (hmerge : env.dlEvents.Perm
      (env.dlWorkers.map RequestOutcome.chunks).flatten) :
    (runBody env).finalPhase = .COMPLETE ∧
    TestPhase.TRANSITION ∈ (runBody env).trace ∧
    ∃ r, (runBody env).result = some r ∧ r.download = 0 := by
  have hflat : (env.dlWorkers.map RequestOutcome.chunks).flatten = [] := by
    rw [List.flatten_eq_nil_iff]
    intro l hl
    rcases List.mem_map.mp hl with ⟨w, hw, rfl⟩
    exact (hfail w hw).2
  have hev : env.dlEvents = [] := (hflat ▸ hmerge).eq_nil
  have hdl : (runDownloadTest env.testStartDl env.lastHist0 env.dlEvents).2 = 0 := by
    rw [hev]
    rfl
  simp only [runBody, hcrash]
  refine ⟨by simp, by simp, ⟨_, rfl, ?_⟩⟩
  exact hdl

/-- C6 witness: the concrete environment in which all four download
requests error with no delivered bytes. -/
theorem all_failed_download_witness :
    (runBody ⟨[some 20, some 21, some 22, some 23, some 24, some 25], 0,
        [⟨[], true, 50⟩, ⟨[], true, 60⟩, ⟨[], true, 70⟩, ⟨[], true, 80⟩],
        [], 0, [], 0, none⟩).finalPhase = .COMPLETE ∧
    TestPhase.TRANSITION ∈ (runBody ⟨[some 20, some 21, some 22, some 23,
        some 24, some 25], 0,
        [⟨[], true, 50⟩, ⟨[], true, 60⟩, ⟨[], true, 70⟩, ⟨[], true, 80⟩],
        [], 0, [], 0, none⟩).trace ∧
    ∃ r, (runBody ⟨[some 20, some 21, some 22, some 23, some 24, some 25],
        0, [⟨[], true, 50⟩, ⟨[], true, 60⟩, ⟨[], true, 70⟩, ⟨[], true, 80⟩],
        [], 0, [], 0, none⟩).result = some r ∧ r.download = 0 :=
  all_failed_download_yields_zero _ rfl rfl
    (by intro w hw; fin_cases hw <;> exact ⟨rfl, rfl⟩)
    (by simp)

/-- C9: an exception escaping any step of a run (probe pass, download,
transition pause or upload) lands in the outer catch: the machine falls
back to IDLE, no TestResult is produced, and COMPLETE is never entered. -/
theorem crash_falls_back_to_idle (env : Env) (c : CrashPoint)
    (hc : env.crash = some c) :
    (runBody env).finalPhase = .IDLE ∧
    (runBody env).result = none ∧
    TestPhase.COMPLETE ∉ (runBody env).trace := by
  cases c <;> simp [runBody, hc]

/-- C9 witness: a run whose download phase raises an escaping exception
rests in IDLE with no result. -/
theorem crash_falls_back_witness :
    (runBody ⟨[], 0, [], [], 0, [], 0, some .download⟩).finalPhase = .IDLE ∧
    (runBody ⟨[], 0, [], [], 0, [], 0, some .download⟩).result = none ∧
    TestPhase.COMPLETE ∉
      (runBody ⟨[], 0, [], [], 0, [], 0, some .download⟩).trace :=
  crash_falls_back_to_idle _ .download rfl

end Velocity
